import Mathlib

/-!
Verification of the waybar-finance TUI core (src/sysScripts/waybar-finance).

This file gives a shallow embedding of the parts of the program that the
properties below are about:

* `app.rs`: the `App` state, `App::new`, the cursor operations
  (`next`, `previous`, `delete`, `next_search`, `previous_search`) and
  `to_config`;
* `ui.rs`: the event-handling `match` of the `run_tui` consumer loop,
  embedded as `applyEvent : App -> AppEvent -> Option (App × List Cmd)`.
  A `none` result marks a Rust panic (out-of-bounds `Vec` indexing); the
  `List Cmd` component records the asynchronous work the handler spawns
  (the per-symbol fetch task, the ticker-search task, the synchronous
  config write);
* `network.rs`: `fetch_history` and the result-mapping loop of
  `fetch_market_status`, with the HTTP transport abstracted into the
  already-parsed upstream response; and `get_yahoo_crumb`, modelled as a
  small interleaved transition system of two concurrent callers around
  the mutex-guarded crumb cache;
* `config.rs`: `save_config` / `load_config`, with the serde_json layer
  modelled at the JSON-value level and the filesystem abstracted into the
  optional file contents passed as arguments.

Rust `f64` values carried by quotes, history points and yields are
represented as `Rat`; none of the verified properties depends on
floating-point rounding, the values are only stored, moved and compared.
Rust `String` maps to `String`, `Vec` to `List`, `Option` to `Option`,
`anyhow::Result` to `Except String`.
-/

/-- Subset of `ratatui::style::Color` used by the program. -/
inductive Color where
  | red
  | green
  | yellow
  | cyan
  | gray
  | darkGray
  | blue
  | white
deriving DecidableEq, Repr

/-- `app.rs` `InputMode`: input state of the TUI. -/
inductive InputMode where
  | Normal
  | Editing
  | KeyEntry
deriving DecidableEq, Repr

/-- The part of `ratatui::widgets::ListState` the program uses: the
selected index.  `ListState::default()` has no selection. -/
structure ListState where
  selected : Option Nat
deriving DecidableEq, Repr

instance : Inhabited ListState := ⟨⟨none⟩⟩

/-- `ListState::select`. -/
def ListState.select (_s : ListState) (v : Option Nat) : ListState :=
  ⟨v⟩

/-- `app.rs` `Config`: persisted watchlist plus credential. -/
structure Config where
  stocks : List String
  api_key : Option String
deriving DecidableEq, Repr

/-- `impl Default for Config` in `app.rs`. -/
def Config.defaultConfig : Config :=
  ⟨["SCHO", "SPY", "BITB", "SGOL", "QQQ"], none⟩

/-- `network.rs` `FinnhubQuote` (`c` = price, `dp` = percent). -/
structure FinnhubQuote where
  price : Rat
  percent : Rat
deriving DecidableEq, Repr

/-- `app.rs` `StockDetails`. -/
structure StockDetails where
  market_cap : Nat
  pe_ratio : Option Rat
  dividend_yield : Option Rat
  high_52w : Rat
  low_52w : Rat
  year_return : Option Rat
deriving DecidableEq, Repr

/-- `app.rs` `MarketStatus`: the three reference treasury yields. -/
structure MarketStatus where
  yield_10y : Rat
  yield_5y : Rat
  yield_3m : Rat
deriving DecidableEq, Repr

/-- `MarketStatus::spread_10y_3m`. -/
def MarketStatus.spread_10y_3m (m : MarketStatus) : Rat :=
  m.yield_10y - m.yield_3m

/-- `network.rs` `YahooSearchResult`. -/
structure YahooSearchResult where
  symbol : String
  name : Option String
  quote_type : Option String
deriving DecidableEq, Repr

/-- `network.rs` `YahooQuote`: one entry of the v7 quote response. -/
structure YahooQuote where
  market_cap : Option Rat
  net_assets : Option Rat
  pe_ratio : Option Rat
  dividend_yield : Option Rat
  trailing_yield : Option Rat
  high_52w : Option Rat
  low_52w : Option Rat
  ytd_return : Option Rat
  fifty_two_week_change : Option Rat
  symbol : String
  regular_market_price : Option Rat
deriving DecidableEq, Repr

/-- `app.rs` `App`: the runtime state owned by the consumer loop. -/
structure App where
  stocks : List String
  should_quit : Bool
  state : ListState
  api_key : Option String
  current_quote : Option FinnhubQuote
  stock_history : Option (List (Rat × Rat))
  details : Option StockDetails
  search_results : List YahooSearchResult
  search_state : ListState
  market_status : Option MarketStatus
  input : String
  input_mode : InputMode
  message : String
  message_color : Color
deriving DecidableEq, Repr

/-- `App::new` (`app.rs`).  Note the unconditional `state.select(Some(0))`
before the watchlist is inspected. -/
def App.new (config : Config) (message : String) (message_color : Color)
    (stock_history : Option (List (Rat × Rat))) : App :=
  let state := ListState.select default (some 0)
  let mic : InputMode × String × Color :=
    match config.api_key with
    | some _ => (InputMode.Normal, message, message_color)
    | none =>
        (InputMode.KeyEntry, "Welcome! Please enter your Finnhub API Key.",
          Color.yellow)
  { stocks := config.stocks
    should_quit := false
    state := state
    api_key := config.api_key
    current_quote := none
    input := ""
    input_mode := mic.1
    message := mic.2.1
    message_color := mic.2.2
    stock_history := stock_history
    details := none
    search_results := []
    search_state := default
    market_status := none }

/-- `App::next`: move the selection down, wrapping modulo length. -/
def App.next (a : App) : App :=
  if a.stocks.isEmpty then a
  else
    let i :=
      match a.state.selected with
      | some i => (i + 1) % a.stocks.length
      | none => 0
    { a with state := a.state.select (some i) }

/-- `App::previous`: move the selection up, wrapping modulo length. -/
def App.previous (a : App) : App :=
  if a.stocks.isEmpty then a
  else
    let i :=
      match a.state.selected with
      | some i => (i + a.stocks.length - 1) % a.stocks.length
      | none => 0
    { a with state := a.state.select (some i) }

/-- `App::to_config`. -/
def App.to_config (a : App) : Config :=
  ⟨a.stocks, a.api_key⟩

/-- `App::delete`.  `Vec::remove` panics when the index is out of bounds;
that case is `none`. -/
def App.delete (a : App) : Option App :=
  match a.state.selected with
  | none => some a
  | some selected =>
      if a.stocks.isEmpty then some a
      else if selected < a.stocks.length then
        let stocks := a.stocks.eraseIdx selected
        if stocks.isEmpty then
          some { a with stocks := stocks, state := a.state.select none }
        else if stocks.length ≤ selected then
          some { a with stocks := stocks,
                        state := a.state.select (some (stocks.length - 1)) }
        else
          some { a with stocks := stocks }
      else none

/-- `App::next_search`. -/
def App.next_search (a : App) : App :=
  if a.search_results.isEmpty then a
  else
    let i :=
      match a.search_state.selected with
      | some i => (i + 1) % a.search_results.length
      | none => 0
    { a with search_state := a.search_state.select (some i) }

/-- `App::previous_search`. -/
def App.previous_search (a : App) : App :=
  if a.search_results.isEmpty then a
  else
    let i :=
      match a.search_state.selected with
      | some i => (i + a.search_results.length - 1) % a.search_results.length
      | none => 0
    { a with search_state := a.search_state.select (some i) }

/-- Subset of `crossterm::event::KeyCode` the handlers match on. -/
inductive KeyCode where
  | char (c : Char)
  | enter
  | backspace
  | esc
  | up
  | down
  | delete
  | other
deriving DecidableEq, Repr

/-- A `crossterm` terminal event, already filtered to the cases the loop
distinguishes: a paste, a key press, or anything else. -/
inductive CrossEvent where
  | key (code : KeyCode)
  | paste (s : String)
  | other
deriving DecidableEq, Repr

/-- Decidable equality for `Except`, needed to evaluate concrete events. -/
instance {ε α : Type _} [DecidableEq ε] [DecidableEq α] :
    DecidableEq (Except ε α) := fun x y =>
  match x, y with
  | Except.ok a, Except.ok b =>
      if h : a = b then isTrue (by rw [h])
      else isFalse (by intro hc; cases hc; exact h rfl)
  | Except.error a, Except.error b =>
      if h : a = b then isTrue (by rw [h])
      else isFalse (by intro hc; cases hc; exact h rfl)
  | Except.ok _, Except.error _ => isFalse (by intro hc; cases hc)
  | Except.error _, Except.ok _ => isFalse (by intro hc; cases hc)

/-- `ui.rs` `AppEvent`: the events of the single consumer channel. -/
inductive AppEvent where
  | quoteFetched (sym : String) (res : Except String FinnhubQuote)
  | historyFetched (sym : String) (res : Except String (List (Rat × Rat)))
  | detailsFetched (sym : String) (res : Except String StockDetails)
  | input (ev : CrossEvent)
  | searchResultsFetched (results : List YahooSearchResult)
  | marketFetched (res : Except String MarketStatus)
  | tick
deriving DecidableEq, Repr

/-- Asynchronous work spawned by an event handler: the three per-symbol
fetches of the spawned fetch task, the ticker-search task, and the
synchronous config write of the key-entry handler. -/
inductive Cmd where
  | fetchQuote (sym : String)
  | fetchHistory (sym : String)
  | fetchDetails (sym : String)
  | search (query : String)
  | saveConfig (cfg : Config)
deriving DecidableEq, Repr

/-- Rust `str::trim`: strip leading and trailing whitespace.  Defined
over the character list so that it evaluates by kernel reduction. -/
def rust_trim (s : String) : String :=
  String.mk
    (((s.data.dropWhile Char.isWhitespace).reverse.dropWhile
      Char.isWhitespace).reverse)

/-- Rust `str::to_uppercase`, on the ASCII range the program uses. -/
def rust_to_uppercase (s : String) : String :=
  String.mk (s.data.map Char.toUpper)

/-- Rust `String::pop`: drop the last character. -/
def string_pop (s : String) : String :=
  String.mk s.data.dropLast

/-- The `InputMode::KeyEntry` arm of the key dispatch in `run_tui`.
The disk write of `save_config` is recorded as a `Cmd.saveConfig` of the
serialized state (its I/O error branch is outside the embedding). -/
def applyKeyEntry (a : App) (code : KeyCode) : App × List Cmd :=
  match code with
  | KeyCode.char c => ({ a with input := a.input.push c }, [])
  | KeyCode.backspace => ({ a with input := string_pop a.input }, [])
  | KeyCode.enter =>
      let key := rust_trim a.input
      if key.isEmpty then (a, [])
      else
        let a2 := { a with
          api_key := some key
          input := ""
          input_mode := InputMode.Normal
          message := "API Key Saved! Press \x27q\x27 to quit."
          message_color := Color.green }
        (a2, [Cmd.saveConfig a2.to_config])
  | KeyCode.esc => ({ a with should_quit := true }, [])
  | _ => (a, [])

/-- The `InputMode::Normal` arm of the key dispatch in `run_tui`.
`app.stocks[selected]` panics (`none`) when the index is out of bounds;
the spawned fetch task is recorded as the three fetch commands. -/
def applyNormal (a : App) (code : KeyCode) : Option (App × List Cmd) :=
  match code with
  | KeyCode.char c =>
      if c = 'q' then some ({ a with should_quit := true }, [])
      else if c = 'a' then
        some ({ a with input_mode := InputMode.Editing,
                       message := "Enter Symbol...",
                       message_color := Color.yellow }, [])
      else if c = 'd' then (a.delete).map (fun a2 => (a2, []))
      else some (a, [])
  | KeyCode.down => some (a.next, [])
  | KeyCode.up => some (a.previous, [])
  | KeyCode.enter =>
      match a.state.selected with
      | none => some (a, [])
      | some selected =>
          match a.stocks.get? selected with
          | none => none
          | some new_symbol =>
              match a.api_key with
              | some _ =>
                  some ({ a with message := "Fetching " ++ new_symbol ++ "...",
                                 message_color := Color.cyan },
                    [Cmd.fetchQuote new_symbol, Cmd.fetchHistory new_symbol,
                      Cmd.fetchDetails new_symbol])
              | none => some (a, [])
  | KeyCode.delete => (a.delete).map (fun a2 => (a2, []))
  | _ => some (a, [])

/-- The `InputMode::Editing` arm of the key dispatch in `run_tui`.
The spawned search task only issues a request when the query length
exceeds 1; it is recorded as a conditional `Cmd.search`. -/
def applyEditing (a : App) (code : KeyCode) : App × List Cmd :=
  match code with
  | KeyCode.enter =>
      let new_symbol := rust_to_uppercase (rust_trim a.input)
      if new_symbol.isEmpty then (a, [])
      else if a.stocks.contains new_symbol then
        ({ a with message := new_symbol ++ " exists!",
                  message_color := Color.yellow,
                  input := "",
                  input_mode := InputMode.Normal }, [])
      else
        match a.api_key with
        | some _ =>
            ({ a with message := "Adding " ++ new_symbol ++ "...",
                      stocks := a.stocks ++ [new_symbol],
                      state := a.state.select
                        (some ((a.stocks ++ [new_symbol]).length - 1)),
                      input := "",
                      input_mode := InputMode.Normal },
              [Cmd.fetchQuote new_symbol, Cmd.fetchHistory new_symbol,
                Cmd.fetchDetails new_symbol])
        | none => (a, [])
  | KeyCode.esc =>
      ({ a with input := "", input_mode := InputMode.Normal,
                message := "Ready", message_color := Color.gray }, [])
  | KeyCode.char c =>
      let a2 := { a with input := a.input.push c }
      (a2, if a2.input.length > 1 then [Cmd.search a2.input] else [])
  | KeyCode.backspace => ({ a with input := string_pop a.input }, [])
  | KeyCode.down => (a.next_search, [])
  | KeyCode.up => (a.previous_search, [])
  | _ => (a, [])

/-- The `AppEvent::Input` arm of the consumer loop: pastes append to the
edit buffer in every mode; key presses are routed by `input_mode`. -/
def applyInput (a : App) (ev : CrossEvent) : Option (App × List Cmd) :=
  match ev with
  | CrossEvent.paste s =>
      some ({ a with input := a.input ++ s, message := "Pasted text",
                     message_color := Color.yellow }, [])
  | CrossEvent.key code =>
      match a.input_mode with
      | InputMode.KeyEntry => some (applyKeyEntry a code)
      | InputMode.Normal => applyNormal a code
      | InputMode.Editing => some (applyEditing a code)
  | CrossEvent.other => some (a, [])

/-- One iteration of the `run_tui` consumer loop (`ui.rs`): apply the
received event to the state.  `none` marks a Rust panic; the command
list records the asynchronous tasks the handler spawns. -/
def applyEvent (a : App) (e : AppEvent) : Option (App × List Cmd) :=
  match e with
  | AppEvent.tick => some (a, [])
  | AppEvent.marketFetched res =>
      match res with
      | Except.ok status => some ({ a with market_status := some status }, [])
      | Except.error _ => some (a, [])
  | AppEvent.quoteFetched sym res =>
      match res with
      | Except.ok q =>
          some ({ a with current_quote := some q,
                         message := "Updated " ++ sym,
                         message_color := Color.red }, [])
      | Except.error e =>
          some ({ a with message := "Error: " ++ e,
                         message_color := Color.red }, [])
  | AppEvent.historyFetched _ res =>
      match res with
      | Except.ok h => some ({ a with stock_history := some h }, [])
      | Except.error _ => some ({ a with stock_history := none }, [])
  | AppEvent.detailsFetched sym res =>
      match res with
      | Except.ok d => some ({ a with details := some d }, [])
      | Except.error e =>
          some ({ a with details := none,
                         message := "Details fetch failed for " ++ sym
                           ++ ": " ++ e,
                         message_color := Color.red }, [])
  | AppEvent.input ev => applyInput a ev
  | AppEvent.searchResultsFetched results =>
      let a2 := { a with
        message := "Fetched " ++ toString results.length ++ " results"
        message_color := Color.cyan
        search_results := results }
      if a2.search_results.isEmpty then
        some ({ a2 with search_state := a2.search_state.select none }, [])
      else
        some ({ a2 with search_state := a2.search_state.select (some 0) }, [])

/-- Multi-step reachability through the consumer loop: `Reaches a b` when
some sequence of events takes the state from `a` to `b` without a panic. -/
inductive Reaches : App → App → Prop where
  | refl (a : App) : Reaches a a
  | tail {a b c : App} {e : AppEvent} {cmds : List Cmd}
      (h1 : Reaches a b) (h2 : applyEvent b e = some (c, cmds)) :
      Reaches a c

/-- A state of the running application: produced by `App::new` from some
configuration and startup arguments, then evolved by the consumer loop. -/
def ReachableApp (a : App) : Prop :=
  ∃ cfg msg col hist, Reaches (App.new cfg msg col hist) a

/-- The selection-cursor invariant of the spec: the cursor is a valid
index when the watchlist is non-empty and unset when it is empty. -/
def cursorOk (a : App) : Bool :=
  match a.state.selected with
  | none => a.stocks.isEmpty
  | some i => decide (i < a.stocks.length)

/-- Outside the forced `KeyEntry` mode an API key is always present. -/
def apiKeyOk (a : App) : Bool :=
  match a.input_mode, a.api_key with
  | InputMode.KeyEntry, _ => true
  | _, some _ => true
  | _, none => false

/-- One parsed data point of the Yahoo history response
(`q.timestamp as f64`, `q.close`). -/
structure HistQuote where
  timestamp : Nat
  close : Rat
deriving DecidableEq, Repr

/-- `network.rs` `fetch_history`, with the provider call abstracted into
its result: either an upstream error or the parsed quote list.  The body
maps each quote to a `(timestamp, close)` pair and rejects an empty
point list with the dedicated error. -/
def fetch_history (response : Except String (List HistQuote)) :
    Except String (List (Rat × Rat)) :=
  match response with
  | Except.error e => Except.error e
  | Except.ok quotes =>
      let points := quotes.map (fun q => ((q.timestamp : Rat), q.close))
      if points.isEmpty then Except.error "History data is empty"
      else Except.ok points

/-- One iteration of the result-mapping loop of `fetch_market_status`
(`network.rs`): route the entry to the yield field named by its `symbol`. -/
def marketStep (acc : MarketStatus) (q : YahooQuote) : MarketStatus :=
  let val := q.regular_market_price.getD 0
  if q.symbol = "^TNX" then { acc with yield_10y := val }
  else if q.symbol = "^FVX" then { acc with yield_5y := val }
  else if q.symbol = "^IRX" then { acc with yield_3m := val }
  else acc

/-- `network.rs` `fetch_market_status`, with the crumb handshake and HTTP
transport abstracted into the already-parsed `quote_response.result`
array: fold the mapping loop over the entries starting from zeroed
yields. -/
def fetch_market_status (results : List YahooQuote) : MarketStatus :=
  results.foldl marketStep ⟨0, 0, 0⟩

/-- JSON values, as far as the persisted `Config` needs them.  The serde
layer is modelled at the JSON-value level: writing and re-reading the
file preserves the value. -/
inductive Json where
  | null
  | str (s : String)
  | arr (items : List Json)
  | obj (fields : List (String × Json))
deriving Repr

/-- serde serialization of `Config` (field order of the struct). -/
def encodeConfig (c : Config) : Json :=
  Json.obj
    [("stocks", Json.arr (c.stocks.map Json.str)),
      ("api_key",
        match c.api_key with
        | some k => Json.str k
        | none => Json.null)]

/-- First binding of a field name in a JSON object. -/
def lookupField (fields : List (String × Json)) (name : String) :
    Option Json :=
  match fields with
  | [] => none
  | (n, v) :: rest => if n = name then some v else lookupField rest name

/-- serde deserialization of a `Vec<String>`. -/
def decodeStrings : List Json → Option (List String)
  | [] => some []
  | Json.str s :: rest => (decodeStrings rest).map (fun l => s :: l)
  | _ => none

/-- serde deserialization of `Config`: `stocks` is required, `api_key`
is an `Option` field (missing or `null` is `None`). -/
def decodeConfig (j : Json) : Option Config :=
  match j with
  | Json.obj fields =>
      match lookupField fields "stocks" with
      | some (Json.arr items) =>
          match decodeStrings items with
          | some stocks =>
              match lookupField fields "api_key" with
              | none => some ⟨stocks, none⟩
              | some Json.null => some ⟨stocks, none⟩
              | some (Json.str k) => some ⟨stocks, some k⟩
              | some _ => none
          | none => none
      | _ => none
  | _ => none

/-- `config.rs` `save_config`: the JSON document written to the local
config file (directory creation and write errors are I/O, outside the
embedding). -/
def save_config (c : Config) : Json :=
  encodeConfig c

/-- `config.rs` `FinanceConfig`: the `waybar_finance` table of the
central TOML. -/
structure FinanceConfig where
  api_key : String
  stocks : Option (List String)
deriving DecidableEq, Repr

/-- `config.rs` `load_config`.  `localFile` is the content of the local
JSON file when it exists; `central` is the parsed `waybar_finance` table
of the central TOML when that file exists, parses, and has the table
(any failure on that path falls through, exactly like the nested `if`
chain in the source).  A local config without an API key is skipped in
favour of the central config, else the built-in default. -/
def load_config (localFile : Option Json) (central : Option FinanceConfig) :
    Config :=
  let fallback : Config :=
    match central with
    | some finance =>
        ⟨finance.stocks.getD ["SPY", "QQQ", "BTC-USD"], some finance.api_key⟩
    | none => Config.defaultConfig
  match localFile with
  | some content =>
      match decodeConfig content with
      | some config => if config.api_key.isSome then config else fallback
      | none => fallback
  | none => fallback

/-- Progress of one caller of `get_yahoo_crumb` (`network.rs`): not yet
at the mutex, holding the mutex, or returned with a result. -/
inductive CallerPhase where
  | idle
  | locked
  | done (r : Except String String)
deriving DecidableEq, Repr

/-- Holder of the `YAHOO_CRUMB` mutex. -/
inductive LockOwner where
  | free
  | c0
  | c1
deriving DecidableEq, Repr

/-- Shared state of the crumb cache with two concurrent callers: the
mutex, the cached crumb, the number of network handshakes performed so
far, and each caller's phase.  Between acquiring and releasing the mutex
a caller only touches this shared state (the other contender is blocked
on the mutex), so the critical section is one atomic step. -/
structure CrumbState where
  owner : LockOwner
  cache : Option String
  handshakes : Nat
  p0 : CallerPhase
  p1 : CallerPhase
deriving DecidableEq, Repr

/-- Cold start: empty cache, free mutex, both callers before the lock. -/
def initCrumbState : CrumbState :=
  ⟨LockOwner.free, none, 0, CallerPhase.idle, CallerPhase.idle⟩

/-- Body of `get_yahoo_crumb` under the lock, from `network.rs`: a cache
hit returns the cached crumb without a handshake; a miss performs the
handshake (warm-up plus crumb request, result given by the oracle `net`
indexed by handshake count), caches only a success, and returns the
handshake's result.  Returns (new cache, new handshake count, result). -/
def crumbCritical (net : Nat → Except String String) (cache : Option String)
    (handshakes : Nat) : Option String × Nat × Except String String :=
  match cache with
  | some c => (some c, handshakes, Except.ok c)
  | none =>
      match net handshakes with
      | Except.ok t => (some t, handshakes + 1, Except.ok t)
      | Except.error e => (none, handshakes + 1, Except.error e)

/-- Interleaving semantics of two concurrent `get_yahoo_crumb` callers:
either caller may acquire the free mutex when still idle, and the holder
may run the critical section and release. -/
inductive CrumbStep (net : Nat → Except String String) :
    CrumbState → CrumbState → Prop where
  | acquire0 (s : CrumbState) (ho : s.owner = LockOwner.free)
      (hp : s.p0 = CallerPhase.idle) :
      CrumbStep net s { s with owner := LockOwner.c0, p0 := CallerPhase.locked }
  | acquire1 (s : CrumbState) (ho : s.owner = LockOwner.free)
      (hp : s.p1 = CallerPhase.idle) :
      CrumbStep net s { s with owner := LockOwner.c1, p1 := CallerPhase.locked }
  | finish0 (s : CrumbState) (ho : s.owner = LockOwner.c0)
      (hp : s.p0 = CallerPhase.locked) :
      CrumbStep net s
        { s with owner := LockOwner.free
                 cache := (crumbCritical net s.cache s.handshakes).1
                 handshakes := (crumbCritical net s.cache s.handshakes).2.1
                 p0 := CallerPhase.done (crumbCritical net s.cache s.handshakes).2.2 }
  | finish1 (s : CrumbState) (ho : s.owner = LockOwner.c1)
      (hp : s.p1 = CallerPhase.locked) :
      CrumbStep net s
        { s with owner := LockOwner.free
                 cache := (crumbCritical net s.cache s.handshakes).1
                 handshakes := (crumbCritical net s.cache s.handshakes).2.1
                 p1 := CallerPhase.done (crumbCritical net s.cache s.handshakes).2.2 }

/-- Reachability in the two-caller crumb system. -/
inductive CrumbReach (net : Nat → Except String String) :
    CrumbState → CrumbState → Prop where
  | refl (s : CrumbState) : CrumbReach net s s
  | tail {s t u : CrumbState} (h1 : CrumbReach net s t)
      (h2 : CrumbStep net t u) : CrumbReach net s u

/-- The cache content left behind by one handshake with result `r`:
only a success is cached. -/
def cacheOf (r : Except String String) : Option String :=
  match r with
  | Except.ok t => some t
  | Except.error _ => none

theorem cursorOk_next {a : App} (h : cursorOk a = true) : cursorOk a.next = true := by
  unfold App.next
  by_cases he : a.stocks.isEmpty = true
  · simpa [he] using h
  · have hlen : 0 < a.stocks.length := by
      rcases hs : a.stocks with _ | ⟨x, xs⟩
      · simp [hs] at he
      · simp [hs]
    simp only [he, if_false, Bool.false_eq_true]
    cases hsel : a.state.selected with
    | none => simp [cursorOk, ListState.select, hsel, hlen]
    | some j =>
        simp [cursorOk, ListState.select, hsel]
        exact Nat.mod_lt _ hlen

theorem cursorOk_previous {a : App} (h : cursorOk a = true) :
    cursorOk a.previous = true := by
  unfold App.previous
  by_cases he : a.stocks.isEmpty = true
  · simpa [he] using h
  · have hlen : 0 < a.stocks.length := by
      rcases hs : a.stocks with _ | ⟨x, xs⟩
      · simp [hs] at he
      · simp [hs]
    simp only [he, if_false, Bool.false_eq_true]
    cases hsel : a.state.selected with
    | none => simp [cursorOk, ListState.select, hsel, hlen]
    | some j =>
        simp [cursorOk, ListState.select, hsel]
        exact Nat.mod_lt _ hlen

theorem cursorOk_delete {a a' : App} (h : cursorOk a = true)
    (hd : a.delete = some a') : cursorOk a' = true := by
  unfold App.delete at hd
  cases hsel : a.state.selected with
  | none =>
      rw [hsel] at hd
      cases hd
      exact h
  | some selected =>
      rw [hsel] at hd
      have hlt : selected < a.stocks.length := by
        have := h
        simp [cursorOk, hsel] at this
        exact this
      by_cases he : a.stocks.isEmpty = true
      · have : a.stocks.length = 0 := by
          rcases hs : a.stocks with _ | ⟨x, xs⟩
          · simp [hs]
          · simp [hs] at he
        omega
      · simp only [he, if_false, Bool.false_eq_true, hlt, if_true, if_pos hlt] at hd
        by_cases h1 : (a.stocks.eraseIdx selected).isEmpty = true
        · simp only [h1, if_true, if_pos h1] at hd
          cases hd
          simp [cursorOk, ListState.select, h1]
        · simp only [h1, Bool.false_eq_true, if_false] at hd
          have hlen1 : 0 < (a.stocks.eraseIdx selected).length := by
            rcases hs : a.stocks.eraseIdx selected with _ | ⟨x, xs⟩
            · simp [hs] at h1
            · simp [hs]
          by_cases h2 : (a.stocks.eraseIdx selected).length ≤ selected
          · simp only [h2, if_true, if_pos h2] at hd
            cases hd
            simp [cursorOk, ListState.select]
            omega
          · simp only [h2, if_false] at hd
            cases hd
            simp [cursorOk, ListState.select, hsel]
            omega

theorem cursorOk_next_search {a : App} (h : cursorOk a = true) :
    cursorOk a.next_search = true := by
  unfold App.next_search
  by_cases he : a.search_results.isEmpty = true
  · simpa [he] using h
  · simp only [he, if_false, Bool.false_eq_true]
    simpa [cursorOk] using h

theorem cursorOk_previous_search {a : App} (h : cursorOk a = true) :
    cursorOk a.previous_search = true := by
  unfold App.previous_search
  by_cases he : a.search_results.isEmpty = true
  · simpa [he] using h
  · simp only [he, if_false, Bool.false_eq_true]
    simpa [cursorOk] using h

theorem cursorOk_eq_of {a b : App} (hs : b.stocks = a.stocks)
    (ht : b.state = a.state) : cursorOk b = cursorOk a := by
  simp [cursorOk, hs, ht]

theorem applyKeyEntry_stocks_state (a : App) (code : KeyCode) :
    (applyKeyEntry a code).1.stocks = a.stocks ∧
      (applyKeyEntry a code).1.state = a.state := by
  cases code <;> simp [applyKeyEntry]
  split <;> simp

theorem cursorOk_applyNormal {a a' : App} {code : KeyCode} {cmds : List Cmd}
    (h : cursorOk a = true) (hstep : applyNormal a code = some (a', cmds)) :
    cursorOk a' = true := by
  cases code with
  | char c =>
      simp only [applyNormal] at hstep
      split_ifs at hstep with h1 h2 h3
      · cases hstep
        simpa [cursorOk] using h
      · cases hstep
        simpa [cursorOk] using h
      · rw [Option.map_eq_some'] at hstep
        obtain ⟨a2, hd, h4⟩ := hstep
        cases h4
        exact cursorOk_delete h hd
      · cases hstep
        exact h
  | down =>
      cases hstep
      exact cursorOk_next h
  | up =>
      cases hstep
      exact cursorOk_previous h
  | enter =>
      simp only [applyNormal] at hstep
      split at hstep
      · cases hstep
        exact h
      · split at hstep
        · exact Option.noConfusion hstep
        · split at hstep
          · cases hstep
            simpa [cursorOk] using h
          · cases hstep
            exact h
  | delete =>
      simp only [applyNormal, Option.map_eq_some'] at hstep
      obtain ⟨a2, hd, h4⟩ := hstep
      cases h4
      exact cursorOk_delete h hd
  | backspace => cases hstep; exact h
  | esc => cases hstep; exact h
  | other => cases hstep; exact h

theorem cursorOk_applyEditing {a : App} (code : KeyCode)
    (h : cursorOk a = true) : cursorOk (applyEditing a code).1 = true := by
  cases code with
  | enter =>
      simp only [applyEditing]
      split
      · exact h
      · split
        · simpa [cursorOk] using h
        · cases hk : a.api_key with
          | none => simpa [hk] using h
          | some k =>
              simp only [hk]
              simp [cursorOk, ListState.select]
  | esc => simpa [applyEditing, cursorOk] using h
  | char c => simpa [applyEditing, cursorOk] using h
  | backspace => simpa [applyEditing, cursorOk] using h
  | down => exact cursorOk_next_search (a := a) h
  | up => exact cursorOk_previous_search (a := a) h
  | delete => simpa [applyEditing] using h
  | other => simpa [applyEditing] using h

theorem cursorOk_applyEvent {a a' : App} {e : AppEvent} {cmds : List Cmd}
    (h : cursorOk a = true) (hstep : applyEvent a e = some (a', cmds)) :
    cursorOk a' = true := by
  cases e with
  | tick =>
      cases hstep
      exact h
  | marketFetched res =>
      cases res <;> simp only [applyEvent] at hstep <;> cases hstep <;>
        simpa [cursorOk] using h
  | quoteFetched sym res =>
      cases res <;> simp only [applyEvent] at hstep <;> cases hstep <;>
        simpa [cursorOk] using h
  | historyFetched sym res =>
      cases res <;> simp only [applyEvent] at hstep <;> cases hstep <;>
        simpa [cursorOk] using h
  | detailsFetched sym res =>
      cases res <;> simp only [applyEvent] at hstep <;> cases hstep <;>
        simpa [cursorOk] using h
  | searchResultsFetched results =>
      simp only [applyEvent] at hstep
      split at hstep <;> cases hstep <;> simpa [cursorOk] using h
  | input ev =>
      cases ev with
      | paste s =>
          simp only [applyEvent, applyInput] at hstep
          cases hstep
          simpa [cursorOk] using h
      | other =>
          simp only [applyEvent, applyInput] at hstep
          cases hstep
          exact h
      | key code =>
          simp only [applyEvent, applyInput] at hstep
          split at hstep
          · injection hstep with h2
            have h3 : (applyKeyEntry a code).1 = a' := congrArg Prod.fst h2
            have hss := applyKeyEntry_stocks_state a code
            rw [← h3, cursorOk_eq_of hss.1 hss.2]
            exact h
          · exact cursorOk_applyNormal h hstep
          · injection hstep with h2
            have h3 : (applyEditing a code).1 = a' := congrArg Prod.fst h2
            rw [← h3]
            exact cursorOk_applyEditing code h

theorem apiKeyOk_of_key {a : App} {k : String} (hk : a.api_key = some k) :
    apiKeyOk a = true := by
  unfold apiKeyOk
  rw [hk]
  cases a.input_mode <;> rfl

theorem apiKeyOk_eq_of {a b : App} (hm : b.input_mode = a.input_mode)
    (hk : b.api_key = a.api_key) : apiKeyOk b = apiKeyOk a := by
  simp [apiKeyOk, hm, hk]

theorem delete_frame {a a' : App} (hd : a.delete = some a') :
    a'.api_key = a.api_key ∧ a'.input_mode = a.input_mode ∧
      (a'.stocks = a.stocks ∨ ∃ i, a'.stocks = a.stocks.eraseIdx i) := by
  unfold App.delete at hd
  cases hsel : a.state.selected with
  | none =>
      rw [hsel] at hd
      cases hd
      exact ⟨rfl, rfl, Or.inl rfl⟩
  | some selected =>
      rw [hsel] at hd
      by_cases he : a.stocks.isEmpty = true
      · simp only [he, if_true, if_pos he] at hd
        cases hd
        exact ⟨rfl, rfl, Or.inl rfl⟩
      · by_cases hlt : selected < a.stocks.length
        · simp only [he, Bool.false_eq_true, if_false, hlt, if_true,
            if_pos hlt] at hd
          by_cases h1 : (a.stocks.eraseIdx selected).isEmpty = true
          · simp only [h1, if_true, if_pos h1] at hd
            cases hd
            exact ⟨rfl, rfl, Or.inr ⟨selected, rfl⟩⟩
          · by_cases h2 : (a.stocks.eraseIdx selected).length ≤ selected
            · simp only [h1, Bool.false_eq_true, if_false, h2, if_true,
                if_pos h2] at hd
              cases hd
              exact ⟨rfl, rfl, Or.inr ⟨selected, rfl⟩⟩
            · simp only [h1, Bool.false_eq_true, if_false, h2] at hd
              cases hd
              exact ⟨rfl, rfl, Or.inr ⟨selected, rfl⟩⟩
        · simp only [he, Bool.false_eq_true, if_false, hlt] at hd
          exact Option.noConfusion hd

theorem applyNormal_api_mode {a a' : App} {code : KeyCode} {cmds : List Cmd}
    (hstep : applyNormal a code = some (a', cmds)) :
    a'.api_key = a.api_key ∧
      (a'.input_mode = a.input_mode ∨ a'.input_mode = InputMode.Editing) := by
  cases code with
  | char c =>
      simp only [applyNormal] at hstep
      split_ifs at hstep with h1 h2 h3
      · cases hstep; exact ⟨rfl, Or.inl rfl⟩
      · cases hstep; exact ⟨rfl, Or.inr rfl⟩
      · rw [Option.map_eq_some'] at hstep
        obtain ⟨a2, hd, h4⟩ := hstep
        cases h4
        exact ⟨(delete_frame hd).1, Or.inl (delete_frame hd).2.1⟩
      · cases hstep; exact ⟨rfl, Or.inl rfl⟩
  | down => cases hstep; unfold App.next; split <;> simp
  | up => cases hstep; unfold App.previous; split <;> simp
  | enter =>
      simp only [applyNormal] at hstep
      split at hstep
      · cases hstep; exact ⟨rfl, Or.inl rfl⟩
      · split at hstep
        · exact Option.noConfusion hstep
        · split at hstep <;> (cases hstep; exact ⟨rfl, Or.inl rfl⟩)
  | delete =>
      simp only [applyNormal, Option.map_eq_some'] at hstep
      obtain ⟨a2, hd, h4⟩ := hstep
      cases h4
      exact ⟨(delete_frame hd).1, Or.inl (delete_frame hd).2.1⟩
  | backspace => cases hstep; exact ⟨rfl, Or.inl rfl⟩
  | esc => cases hstep; exact ⟨rfl, Or.inl rfl⟩
  | other => cases hstep; exact ⟨rfl, Or.inl rfl⟩

theorem applyEditing_api_key (a : App) (code : KeyCode) :
    (applyEditing a code).1.api_key = a.api_key := by
  cases code with
  | enter =>
      simp only [applyEditing]
      split
      · rfl
      · split
        · rfl
        · split <;> rfl
  | down =>
      show (App.next_search a).api_key = a.api_key
      unfold App.next_search
      split <;> rfl
  | up =>
      show (App.previous_search a).api_key = a.api_key
      unfold App.previous_search
      split <;> rfl
  | _ => rfl

theorem apiKeyOk_applyEvent {a a' : App} {e : AppEvent} {cmds : List Cmd}
    (h : apiKeyOk a = true) (hstep : applyEvent a e = some (a', cmds)) :
    apiKeyOk a' = true := by
  cases e with
  | tick => cases hstep; exact h
  | marketFetched res =>
      cases res <;> simp only [applyEvent] at hstep <;> cases hstep <;>
        simpa [apiKeyOk] using h
  | quoteFetched sym res =>
      cases res <;> simp only [applyEvent] at hstep <;> cases hstep <;>
        simpa [apiKeyOk] using h
  | historyFetched sym res =>
      cases res <;> simp only [applyEvent] at hstep <;> cases hstep <;>
        simpa [apiKeyOk] using h
  | detailsFetched sym res =>
      cases res <;> simp only [applyEvent] at hstep <;> cases hstep <;>
        simpa [apiKeyOk] using h
  | searchResultsFetched results =>
      simp only [applyEvent] at hstep
      split at hstep <;> cases hstep <;> simpa [apiKeyOk] using h
  | input ev =>
      cases ev with
      | paste s =>
          simp only [applyEvent, applyInput] at hstep
          cases hstep
          simpa [apiKeyOk] using h
      | other =>
          simp only [applyEvent, applyInput] at hstep
          cases hstep
          exact h
      | key code =>
          simp only [applyEvent, applyInput] at hstep
          split at hstep
          · -- KeyEntry mode
            injection hstep with h2
            have h3 : (applyKeyEntry a code).1 = a' := congrArg Prod.fst h2
            cases code with
            | enter =>
                simp only [applyKeyEntry] at h3
                split at h3
                · rw [← h3]
                  exact h
                · exact apiKeyOk_of_key (k := rust_trim a.input) (by rw [← h3])
            | char c =>
                simp only [applyKeyEntry] at h3
                rw [← h3]
                simpa [apiKeyOk] using h
            | backspace =>
                simp only [applyKeyEntry] at h3
                rw [← h3]
                simpa [apiKeyOk] using h
            | esc =>
                simp only [applyKeyEntry] at h3
                rw [← h3]
                simpa [apiKeyOk] using h
            | _ =>
                simp only [applyKeyEntry] at h3
                rw [← h3]
                exact h
          next hm =>
            -- Normal mode
            cases hk : a.api_key with
            | none => rw [apiKeyOk, hm, hk] at h; cases h
            | some k =>
                have := applyNormal_api_mode hstep
                exact apiKeyOk_of_key (k := k) (by rw [this.1, hk])
          next hm =>
            -- Editing mode
            cases hk : a.api_key with
            | none => rw [apiKeyOk, hm, hk] at h; cases h
            | some k =>
                injection hstep with h2
                have h3 : (applyEditing a code).1 = a' := congrArg Prod.fst h2
                refine apiKeyOk_of_key (k := k) ?_
                rw [← h3, applyEditing_api_key, hk]

theorem applyNormal_stocks {a a' : App} {code : KeyCode} {cmds : List Cmd}
    (hstep : applyNormal a code = some (a', cmds)) :
    a'.stocks = a.stocks ∨ ∃ i, a'.stocks = a.stocks.eraseIdx i := by
  cases code with
  | char c =>
      simp only [applyNormal] at hstep
      split_ifs at hstep with h1 h2 h3
      · cases hstep; exact Or.inl rfl
      · cases hstep; exact Or.inl rfl
      · rw [Option.map_eq_some'] at hstep
        obtain ⟨a2, hd, h4⟩ := hstep
        cases h4
        exact (delete_frame hd).2.2
      · cases hstep; exact Or.inl rfl
  | down =>
      cases hstep
      unfold App.next
      split
      · exact Or.inl rfl
      · exact Or.inl rfl
  | up =>
      cases hstep
      unfold App.previous
      split
      · exact Or.inl rfl
      · exact Or.inl rfl
  | enter =>
      simp only [applyNormal] at hstep
      split at hstep
      · cases hstep; exact Or.inl rfl
      · split at hstep
        · exact Option.noConfusion hstep
        · split at hstep <;> (cases hstep; exact Or.inl rfl)
  | delete =>
      simp only [applyNormal, Option.map_eq_some'] at hstep
      obtain ⟨a2, hd, h4⟩ := hstep
      cases h4
      exact (delete_frame hd).2.2
  | backspace => cases hstep; exact Or.inl rfl
  | esc => cases hstep; exact Or.inl rfl
  | other => cases hstep; exact Or.inl rfl

theorem applyEditing_stocks (a : App) (code : KeyCode) :
    (applyEditing a code).1.stocks = a.stocks ∨
      ((applyEditing a code).1.stocks = a.stocks ++ [rust_to_uppercase (rust_trim a.input)] ∧
        a.stocks.contains (rust_to_uppercase (rust_trim a.input)) = false) := by
  cases code with
  | enter =>
      simp only [applyEditing]
      split
      · exact Or.inl rfl
      · split
        · exact Or.inl rfl
        next hc =>
          split
          · exact Or.inr ⟨rfl, by simpa using hc⟩
          · exact Or.inl rfl
  | down =>
      refine Or.inl ?_
      show (App.next_search a).stocks = a.stocks
      unfold App.next_search
      split <;> rfl
  | up =>
      refine Or.inl ?_
      show (App.previous_search a).stocks = a.stocks
      unfold App.previous_search
      split <;> rfl
  | _ => exact Or.inl rfl

theorem nodup_append_single {l : List String} {u : String} (hnd : l.Nodup)
    (hc : l.contains u = false) : (l ++ [u]).Nodup := by
  rw [List.nodup_append]
  refine ⟨hnd, List.nodup_singleton u, ?_⟩
  rw [List.disjoint_singleton]
  intro hmem
  have helem : List.elem u l = true := List.elem_iff.mpr hmem
  have : l.contains u = true := by simpa [List.contains] using helem
  rw [hc] at this
  cases this

theorem nodup_applyEvent {a a' : App} {e : AppEvent} {cmds : List Cmd}
    (hnd : a.stocks.Nodup) (hstep : applyEvent a e = some (a', cmds)) :
    a'.stocks.Nodup := by
  cases e with
  | tick => cases hstep; exact hnd
  | marketFetched res =>
      cases res <;> simp only [applyEvent] at hstep <;> cases hstep <;> exact hnd
  | quoteFetched sym res =>
      cases res <;> simp only [applyEvent] at hstep <;> cases hstep <;> exact hnd
  | historyFetched sym res =>
      cases res <;> simp only [applyEvent] at hstep <;> cases hstep <;> exact hnd
  | detailsFetched sym res =>
      cases res <;> simp only [applyEvent] at hstep <;> cases hstep <;> exact hnd
  | searchResultsFetched results =>
      simp only [applyEvent] at hstep
      split at hstep <;> cases hstep <;> exact hnd
  | input ev =>
      cases ev with
      | paste s =>
          simp only [applyEvent, applyInput] at hstep
          cases hstep
          exact hnd
      | other =>
          simp only [applyEvent, applyInput] at hstep
          cases hstep
          exact hnd
      | key code =>
          simp only [applyEvent, applyInput] at hstep
          split at hstep
          · injection hstep with h2
            have h3 : (applyKeyEntry a code).1 = a' := congrArg Prod.fst h2
            rw [← h3, (applyKeyEntry_stocks_state a code).1]
            exact hnd
          · rcases applyNormal_stocks hstep with h4 | ⟨i, h4⟩
            · rw [h4]; exact hnd
            · rw [h4]
              exact List.Nodup.sublist (List.eraseIdx_sublist _ _) hnd
          · injection hstep with h2
            have h3 : (applyEditing a code).1 = a' := congrArg Prod.fst h2
            rcases applyEditing_stocks a code with h4 | ⟨h4, hc⟩
            · rw [← h3, h4]; exact hnd
            · rw [← h3, h4]
              exact nodup_append_single hnd hc

theorem apiKeyOk_reachable {a : App} (h : ReachableApp a) :
    apiKeyOk a = true := by
  obtain ⟨cfg, msg, col, hist, hr⟩ := h
  induction hr with
  | refl => cases hk : cfg.api_key <;> simp [App.new, apiKeyOk, hk]
  | tail h1 h2 ih => exact apiKeyOk_applyEvent ih h2

theorem applyEditing_enter_duplicate {a : App}
    (hne : (rust_to_uppercase (rust_trim a.input)).isEmpty = false)
    (hcont : a.stocks.contains (rust_to_uppercase (rust_trim a.input)) = true) :
    applyEditing a KeyCode.enter =
      ({ a with message := rust_to_uppercase (rust_trim a.input) ++ " exists!",
                message_color := Color.yellow, input := "",
                input_mode := InputMode.Normal }, []) := by
  simp only [applyEditing]
  rw [if_neg (by simp [hne]), if_pos hcont]

/-- C2 (amended): starting from `App::new` on a configuration with a
non-empty watchlist, every state reachable through any sequence of
consumer-loop events keeps the selection cursor a valid index into the
watchlist while the watchlist is non-empty, and unset once it is empty.
(The original claim, over arbitrary configurations, fails: `App::new`
selects index 0 even for an empty watchlist, see the counterexample.) -/
theorem watchlist_cursor_invariant (cfg : Config) (msg : String) (col : Color)
    (hist : Option (List (Rat × Rat))) (a : App) (hne : cfg.stocks ≠ [])
    (h : Reaches (App.new cfg msg col hist) a) : cursorOk a = true := by
  induction h with
  | refl =>
      have hlen : 0 < cfg.stocks.length := List.length_pos.mpr hne
      simp [App.new, cursorOk, ListState.select, hlen]
  | tail h1 h2 ih => exact cursorOk_applyEvent ih h2

/-- C2 witness: the invariant holds in a concrete reachable state. -/
theorem watchlist_cursor_invariant_witness :
    cursorOk (App.new ⟨["SPY"], some "K"⟩ "Ready" Color.gray none) = true :=
  watchlist_cursor_invariant ⟨["SPY"], some "K"⟩ "Ready" Color.gray none
    (App.new ⟨["SPY"], some "K"⟩ "Ready" Color.gray none) (by decide)
    (Reaches.refl _)

/-- C2 counterexample: `App::new` on a configuration with an empty
watchlist produces a state with an empty watchlist but cursor `Some 0`,
violating the claimed invariant at an initial state. -/
theorem watchlist_cursor_invariant_fails_on_empty_config :
    cursorOk (App.new ⟨[], some "key"⟩ "Ready" Color.gray none) = false ∧
      (App.new ⟨[], some "key"⟩ "Ready" Color.gray none).stocks = [] ∧
      (App.new ⟨[], some "key"⟩ "Ready" Color.gray none).state.selected =
        some 0 :=
  ⟨rfl, rfl, rfl⟩

/-- C10: in the initial state built by `App::new` from a configuration
with an empty watchlist and a present API key, the `Normal`-mode Enter
handler indexes `stocks[0]` on an empty watchlist: the embedded handler
returns `none`, the marker for the Rust out-of-bounds panic, refuting
the claimed in-bounds property. -/
theorem normal_enter_panics_on_empty_watchlist :
    (App.new ⟨[], some "key"⟩ "boot" Color.gray none).state.selected =
        some 0 ∧
      (App.new ⟨[], some "key"⟩ "boot" Color.gray none).stocks = [] ∧
      (App.new ⟨[], some "key"⟩ "boot" Color.gray none).input_mode =
        InputMode.Normal ∧
      applyEvent (App.new ⟨[], some "key"⟩ "boot" Color.gray none)
        (AppEvent.input (CrossEvent.key KeyCode.enter)) = none :=
  ⟨rfl, rfl, rfl, rfl⟩

/-- C3: (1) every consumer-loop step preserves freedom from duplicates
of the watchlist, so any sequence of add-symbol actions from a
duplicate-free watchlist never creates a duplicate; (2) pressing Enter
in `EditingSymbol` mode on a non-empty symbol already present leaves the
watchlist and the selection cursor unchanged, spawns nothing, and sets
the rejection message "SYM exists!". -/
theorem add_symbol_no_duplicates :
    (∀ (a a' : App) (e : AppEvent) (cmds : List Cmd), a.stocks.Nodup →
        applyEvent a e = some (a', cmds) → a'.stocks.Nodup) ∧
      (∀ (a a' : App) (cmds : List Cmd), a.input_mode = InputMode.Editing →
        (rust_to_uppercase (rust_trim a.input)).isEmpty = false →
        a.stocks.contains (rust_to_uppercase (rust_trim a.input)) = true →
        applyEvent a (AppEvent.input (CrossEvent.key KeyCode.enter)) =
          some (a', cmds) →
        a'.stocks = a.stocks ∧ a'.state = a.state ∧
          a'.message = rust_to_uppercase (rust_trim a.input) ++ " exists!" ∧
          a'.message_color = Color.yellow ∧ cmds = []) := by
  constructor
  · intro a a' e cmds hnd hstep
    exact nodup_applyEvent hnd hstep
  · intro a a' cmds hmode hne hcont hstep
    simp only [applyEvent, applyInput, hmode] at hstep
    injection hstep with h2
    rw [applyEditing_enter_duplicate hne hcont] at h2
    cases h2
    exact ⟨rfl, rfl, rfl, rfl, rfl⟩

/-- Concrete `Editing`-mode state with `"aapl"` typed while `"AAPL"` is
already on the watchlist. -/
def appDup : App :=
  ⟨["AAPL"], false, ⟨some 0⟩, some "KEY", none, none, none, [], ⟨none⟩,
    none, "aapl", InputMode.Editing, "Ready", Color.gray⟩

/-- Result state of the duplicate-add rejection. -/
def appDupAfter : App :=
  { appDup with message := "AAPL exists!", message_color := Color.yellow,
                input := "", input_mode := InputMode.Normal }

/-- C3 witness: both parts evaluated at the concrete duplicate add. -/
theorem add_symbol_no_duplicates_witness :
    appDup.stocks.Nodup ∧
      (appDupAfter.stocks = appDup.stocks ∧ appDupAfter.state = appDup.state ∧
        appDupAfter.message = rust_to_uppercase (rust_trim appDup.input) ++ " exists!" ∧
        appDupAfter.message_color = Color.yellow ∧ ([] : List Cmd) = []) :=
  ⟨add_symbol_no_duplicates.1 appDup appDup AppEvent.tick [] (by decide) rfl,
    add_symbol_no_duplicates.2 appDup appDupAfter [] rfl (by decide)
      (by decide) (by decide)⟩

/-- C4: in any reachable `EditingSymbol`-mode state whose trimmed,
uppercased input is non-empty and not already on the watchlist, Enter
appends the symbol at the end, selects it (index = new length - 1),
clears the input buffer, returns to `Normal` mode, and spawns the three
per-symbol fetches (quote, history, details).  Reachability supplies the
API key that the handler requires: every reachable `Editing` state has
one. -/
theorem add_new_symbol_appends_and_selects (a : App) (h : ReachableApp a)
    (hmode : a.input_mode = InputMode.Editing)
    (hne : (rust_to_uppercase (rust_trim a.input)).isEmpty = false)
    (hcont : a.stocks.contains (rust_to_uppercase (rust_trim a.input)) = false) :
    applyEvent a (AppEvent.input (CrossEvent.key KeyCode.enter)) =
      some ({ a with
          message := "Adding " ++ rust_to_uppercase (rust_trim a.input) ++ "...",
          stocks := a.stocks ++ [rust_to_uppercase (rust_trim a.input)],
          state := a.state.select
            (some ((a.stocks ++ [rust_to_uppercase (rust_trim a.input)]).length - 1)),
          input := "",
          input_mode := InputMode.Normal },
        [Cmd.fetchQuote (rust_to_uppercase (rust_trim a.input)),
          Cmd.fetchHistory (rust_to_uppercase (rust_trim a.input)),
          Cmd.fetchDetails (rust_to_uppercase (rust_trim a.input))]) ∧
    (a.stocks ++ [rust_to_uppercase (rust_trim a.input)]).length - 1 = a.stocks.length := by
  have hak : apiKeyOk a = true := apiKeyOk_reachable h
  have hk : ∃ k, a.api_key = some k := by
    cases hkk : a.api_key with
    | none => simp [apiKeyOk, hmode, hkk] at hak
    | some k => exact ⟨k, rfl⟩
  obtain ⟨k, hkk⟩ := hk
  constructor
  · simp only [applyEvent, applyInput, hmode]
    simp only [applyEditing]
    rw [if_neg (by simp [hne]), if_neg (by rw [hcont]; exact Bool.false_ne_true),
      hkk]
  · simp

/-- Initial state for the C4 witness run: one-symbol watchlist, key set. -/
def appAdd1 : App :=
  ⟨["SPY"], false, ⟨some 0⟩, some "KEY", none, none, none, [], ⟨none⟩, none,
    "", InputMode.Editing, "Enter Symbol...", Color.yellow⟩

/-- `Editing` state reached after pressing `a` and pasting `"msft"`. -/
def appAdd2 : App :=
  ⟨["SPY"], false, ⟨some 0⟩, some "KEY", none, none, none, [], ⟨none⟩, none,
    "msft", InputMode.Editing, "Pasted text", Color.yellow⟩

/-- C4 witness: confirming `"msft"` from a concretely reachable state
appends `"MSFT"`, selects it, clears the buffer and spawns the fetches. -/
theorem add_new_symbol_appends_and_selects_witness :
    applyEvent appAdd2 (AppEvent.input (CrossEvent.key KeyCode.enter)) =
      some ({ appAdd2 with
          message := "Adding " ++ rust_to_uppercase (rust_trim appAdd2.input)
            ++ "...",
          stocks := appAdd2.stocks
            ++ [rust_to_uppercase (rust_trim appAdd2.input)],
          state := appAdd2.state.select
            (some ((appAdd2.stocks
              ++ [rust_to_uppercase (rust_trim appAdd2.input)]).length - 1)),
          input := "",
          input_mode := InputMode.Normal },
        [Cmd.fetchQuote (rust_to_uppercase (rust_trim appAdd2.input)),
          Cmd.fetchHistory (rust_to_uppercase (rust_trim appAdd2.input)),
          Cmd.fetchDetails (rust_to_uppercase (rust_trim appAdd2.input))]) ∧
      (appAdd2.stocks
        ++ [rust_to_uppercase (rust_trim appAdd2.input)]).length - 1 =
        appAdd2.stocks.length :=
  add_new_symbol_appends_and_selects appAdd2
    ⟨⟨["SPY"], some "KEY"⟩, "Ready", Color.gray, none,
      Reaches.tail
        (Reaches.tail (Reaches.refl _)
          (show applyEvent
              (App.new ⟨["SPY"], some "KEY"⟩ "Ready" Color.gray none)
              (AppEvent.input (CrossEvent.key (KeyCode.char 'a'))) =
              some (appAdd1, []) by decide))
        (show applyEvent appAdd1 (AppEvent.input (CrossEvent.paste "msft")) =
            some (appAdd2, []) by decide)⟩
    rfl (by decide) (by decide)

/-- State displaying `"MSFT"` (selected and loaded) while a stale
`"TSLA"` fetch is still in flight. -/
def appMsft : App :=
  ⟨["MSFT"], false, ⟨some 0⟩, some "KEY", some ⟨100, 1⟩, some [(10, 20)],
    some ⟨1000, none, none, 30, 20, none⟩, [], ⟨none⟩, none, "",
    InputMode.Normal, "Ready", Color.gray⟩

/-- C1: the consumer loop applies fetch-result events without comparing
the carried symbol to the selected one.  With `"MSFT"` selected, a stale
`QuoteFetched`, `HistoryFetched` and `DetailsFetched` for `"TSLA"` each
overwrite the corresponding displayed field, changing it away from the
`"MSFT"` value, contrary to the claim that they leave it unchanged. -/
theorem stale_fetch_result_overwrites_fields :
    (appMsft.stocks.get? 0 = some "MSFT" ∧
      appMsft.state.selected = some 0) ∧
    applyEvent appMsft (AppEvent.quoteFetched "TSLA" (Except.ok ⟨250, -2⟩)) =
      some ({ appMsft with current_quote := some ⟨250, -2⟩,
                           message := "Updated TSLA",
                           message_color := Color.red }, []) ∧
    some (⟨250, -2⟩ : FinnhubQuote) ≠ appMsft.current_quote ∧
    applyEvent appMsft
        (AppEvent.historyFetched "TSLA" (Except.ok [(30, 40)])) =
      some ({ appMsft with stock_history := some [(30, 40)] }, []) ∧
    some [((30 : Rat), (40 : Rat))] ≠ appMsft.stock_history ∧
    applyEvent appMsft
        (AppEvent.detailsFetched "TSLA"
          (Except.ok ⟨2000, none, none, 3, 2, none⟩)) =
      some ({ appMsft with
        details := some ⟨2000, none, none, 3, 2, none⟩ }, []) ∧
    some (⟨2000, none, none, 3, 2, none⟩ : StockDetails) ≠ appMsft.details :=
  ⟨⟨rfl, rfl⟩, rfl, by decide, rfl, by decide, rfl, by decide⟩

/-- C9 (amended): a `Char` or `Backspace` keystroke in `EditingSymbol`
mode leaves the search-results list and its secondary cursor unchanged
(no reset in the same step); a `Char` additionally spawns a search fetch
when the new buffer is longer than one character.  The list and cursor
are replaced only when a later `SearchResultsFetched` event is applied:
its handler stores the arrived list and sets the cursor to index 0, or
unsets it when the list is empty. -/
theorem search_results_reset_only_on_arrival :
    (∀ (a : App) (c : Char) (out : App × List Cmd),
        a.input_mode = InputMode.Editing →
        applyEvent a (AppEvent.input (CrossEvent.key (KeyCode.char c))) =
          some out →
        out.1.search_results = a.search_results ∧
          out.1.search_state = a.search_state ∧
          out.1.input = a.input.push c ∧
          out.2 = (if (a.input.push c).length > 1 then
            [Cmd.search (a.input.push c)] else [])) ∧
      (∀ (a : App) (out : App × List Cmd),
        a.input_mode = InputMode.Editing →
        applyEvent a (AppEvent.input (CrossEvent.key KeyCode.backspace)) =
          some out →
        out.1.search_results = a.search_results ∧
          out.1.search_state = a.search_state ∧
          out.1.input = string_pop a.input ∧ out.2 = []) ∧
      (∀ (a : App) (rs : List YahooSearchResult) (out : App × List Cmd),
        applyEvent a (AppEvent.searchResultsFetched rs) = some out →
        out.1.search_results = rs ∧
          out.1.search_state.selected =
            (if rs.isEmpty then none else some 0)) := by
  refine ⟨?_, ?_, ?_⟩
  · intro a c out hmode hstep
    simp only [applyEvent, applyInput, hmode] at hstep
    injection hstep with h2
    simp only [applyEditing] at h2
    cases h2
    exact ⟨rfl, rfl, rfl, rfl⟩
  · intro a out hmode hstep
    simp only [applyEvent, applyInput, hmode] at hstep
    injection hstep with h2
    simp only [applyEditing] at h2
    cases h2
    exact ⟨rfl, rfl, rfl, rfl⟩
  · intro a rs out hstep
    simp only [applyEvent] at hstep
    split at hstep <;> cases hstep
    next hemp =>
      refine ⟨rfl, ?_⟩
      rw [if_pos (by simpa using hemp)]
      rfl
    next hemp =>
      refine ⟨rfl, ?_⟩
      rw [if_neg (by simpa using hemp)]
      rfl

/-- A concrete search match. -/
def resAAPL : YahooSearchResult := ⟨"AAPL", some "Apple Inc.", some "EQUITY"⟩

/-- `Editing` state with a non-empty search-results list and cursor. -/
def appSearch : App :=
  ⟨["SPY"], false, ⟨some 0⟩, some "KEY", none, none, none, [resAAPL],
    ⟨some 0⟩, none, "AA", InputMode.Editing, "Ready", Color.gray⟩

/-- C9 counterexample: typing a character (and likewise Backspace) in
`EditingSymbol` mode leaves the previously fetched search results and
their cursor in place in that same step, instead of resetting them as
the claim states. -/
theorem search_results_not_reset_on_buffer_change :
    applyEvent appSearch (AppEvent.input (CrossEvent.key (KeyCode.char 'P'))) =
      some ({ appSearch with input := "AAP" }, [Cmd.search "AAP"]) ∧
    ({ appSearch with input := "AAP" } : App).search_results = [resAAPL] ∧
    ({ appSearch with input := "AAP" } : App).search_state.selected = some 0 ∧
    [resAAPL] ≠ ([] : List YahooSearchResult) ∧
    applyEvent appSearch (AppEvent.input (CrossEvent.key KeyCode.backspace)) =
      some ({ appSearch with input := "A" }, []) ∧
    ({ appSearch with input := "A" } : App).search_results = [resAAPL] :=
  ⟨by decide, rfl, rfl, by decide, by decide, rfl⟩

/-- Handler output for the C9 witness keystroke. -/
def outChar : App × List Cmd :=
  ({ appSearch with input := "AAP" }, [Cmd.search "AAP"])

/-- Handler output for the C9 witness Backspace. -/
def outBsp : App × List Cmd := ({ appSearch with input := "A" }, [])

/-- Handler output for the C9 witness empty search-result arrival. -/
def outArr : App × List Cmd :=
  ({ appSearch with
      message := "Fetched 0 results"
      message_color := Color.cyan
      search_results := []
      search_state := ⟨none⟩ }, [])

/-- C9 witness: the amended statement evaluated at concrete inputs. -/
theorem search_results_reset_only_on_arrival_witness :
    (outChar.1.search_results = appSearch.search_results ∧
      outChar.1.search_state = appSearch.search_state ∧
      outChar.1.input = appSearch.input.push 'P' ∧
      outChar.2 = (if (appSearch.input.push 'P').length > 1 then
        [Cmd.search (appSearch.input.push 'P')] else [])) ∧
    (outBsp.1.search_results = appSearch.search_results ∧
      outBsp.1.search_state = appSearch.search_state ∧
      outBsp.1.input = string_pop appSearch.input ∧ outBsp.2 = []) ∧
    (outArr.1.search_results = [] ∧
      outArr.1.search_state.selected =
        (if ([] : List YahooSearchResult).isEmpty then none else some 0)) :=
  ⟨search_results_reset_only_on_arrival.1 appSearch 'P' outChar rfl (by decide),
    search_results_reset_only_on_arrival.2.1 appSearch outBsp rfl (by decide),
    search_results_reset_only_on_arrival.2.2 appSearch [] outArr (by decide)⟩

/-- C7: a successful `fetch_history` result is never the empty list; a
response whose parsed point list is empty is turned into the dedicated
error "History data is empty". -/
theorem fetch_history_empty_is_error :
    (∀ (r : Except String (List HistQuote)) (pts : List (Rat × Rat)),
        fetch_history r = Except.ok pts → pts ≠ []) ∧
      fetch_history (Except.ok []) = Except.error "History data is empty" := by
  constructor
  · intro r pts h
    cases r with
    | error e => simp [fetch_history] at h
    | ok quotes =>
        simp only [fetch_history] at h
        split at h
        · exact Except.noConfusion h
        next hemp =>
          injection h with h2
          subst h2
          intro hnil
          exact hemp (by rw [hnil]; rfl)
  · rfl

/-- C7 witness: a one-point history fetch succeeds and is non-empty. -/
theorem fetch_history_empty_is_error_witness :
    ([((5 : Rat), (7 : Rat))] : List (Rat × Rat)) ≠ [] :=
  fetch_history_empty_is_error.1 (Except.ok [⟨5, 7⟩]) [(5, 7)] (by decide)

theorem decodeStrings_encode (l : List String) :
    decodeStrings (l.map Json.str) = some l := by
  induction l with
  | nil => rfl
  | cons s t ih => simp [decodeStrings, ih]

theorem decode_encode (c : Config) : decodeConfig (encodeConfig c) = some c := by
  cases c with
  | mk stocks key =>
      cases key <;>
        simp [encodeConfig, decodeConfig, lookupField, decodeStrings_encode]

/-- C5 (amended): persisting a configuration whose credential is present
and reloading it reproduces the identical configuration (same watchlist
order, same credential), for any state of the central fallback config.
(The original claim over all configurations fails: a saved configuration
without a credential is skipped by `load_config`, see the
counterexample.) -/
theorem config_roundtrip_with_key (c : Config) (k : String)
    (central : Option FinanceConfig) (hk : c.api_key = some k) :
    load_config (some (save_config c)) central = c := by
  simp [load_config, save_config, decode_encode, hk]

/-- C5 witness: a concrete two-symbol configuration round-trips. -/
theorem config_roundtrip_with_key_witness :
    load_config (some (save_config ⟨["A", "B"], some "key"⟩)) none =
      (⟨["A", "B"], some "key"⟩ : Config) :=
  config_roundtrip_with_key ⟨["A", "B"], some "key"⟩ "key" none rfl

/-- C5 counterexample: saving a configuration with no credential and
reloading yields the built-in default, not the saved configuration:
`load_config` ignores a local file whose `api_key` is absent. -/
theorem config_roundtrip_fails_without_key :
    load_config (some (save_config ⟨["X"], none⟩)) none =
        Config.defaultConfig ∧
      Config.defaultConfig ≠ (⟨["X"], none⟩ : Config) :=
  ⟨by decide, by decide⟩

theorem marketStep_yield_10y (acc : MarketStatus) (q : YahooQuote) :
    (marketStep acc q).yield_10y =
      if q.symbol = "^TNX" then q.regular_market_price.getD 0
      else acc.yield_10y := by
  unfold marketStep
  split_ifs with h1 h2 h3 <;> simp_all

theorem marketStep_yield_5y (acc : MarketStatus) (q : YahooQuote) :
    (marketStep acc q).yield_5y =
      if q.symbol = "^FVX" then q.regular_market_price.getD 0
      else acc.yield_5y := by
  unfold marketStep
  split_ifs with h1 h2 h3 <;> simp_all

theorem marketStep_yield_3m (acc : MarketStatus) (q : YahooQuote) :
    (marketStep acc q).yield_3m =
      if q.symbol = "^IRX" then q.regular_market_price.getD 0
      else acc.yield_3m := by
  unfold marketStep
  split_ifs with h1 h2 h3 <;> simp_all

theorem foldl_yield_10y (rs : List YahooQuote) (acc : MarketStatus) :
    (rs.foldl marketStep acc).yield_10y =
      (rs.filter (fun q => q.symbol == "^TNX")).foldl
        (fun _ q => q.regular_market_price.getD 0) acc.yield_10y := by
  induction rs generalizing acc with
  | nil => rfl
  | cons q t ih =>
      rw [List.foldl_cons, ih, List.filter_cons]
      by_cases hq : (q.symbol == "^TNX") = true
      · rw [if_pos hq, List.foldl_cons]
        congr 1
        rw [marketStep_yield_10y, if_pos (by simpa using hq)]
      · rw [if_neg hq]
        congr 1
        rw [marketStep_yield_10y, if_neg (by simpa using hq)]

theorem foldl_yield_5y (rs : List YahooQuote) (acc : MarketStatus) :
    (rs.foldl marketStep acc).yield_5y =
      (rs.filter (fun q => q.symbol == "^FVX")).foldl
        (fun _ q => q.regular_market_price.getD 0) acc.yield_5y := by
  induction rs generalizing acc with
  | nil => rfl
  | cons q t ih =>
      rw [List.foldl_cons, ih, List.filter_cons]
      by_cases hq : (q.symbol == "^FVX") = true
      · rw [if_pos hq, List.foldl_cons]
        congr 1
        rw [marketStep_yield_5y, if_pos (by simpa using hq)]
      · rw [if_neg hq]
        congr 1
        rw [marketStep_yield_5y, if_neg (by simpa using hq)]

theorem foldl_yield_3m (rs : List YahooQuote) (acc : MarketStatus) :
    (rs.foldl marketStep acc).yield_3m =
      (rs.filter (fun q => q.symbol == "^IRX")).foldl
        (fun _ q => q.regular_market_price.getD 0) acc.yield_3m := by
  induction rs generalizing acc with
  | nil => rfl
  | cons q t ih =>
      rw [List.foldl_cons, ih, List.filter_cons]
      by_cases hq : (q.symbol == "^IRX") = true
      · rw [if_pos hq, List.foldl_cons]
        congr 1
        rw [marketStep_yield_3m, if_pos (by simpa using hq)]
      · rw [if_neg hq]
        congr 1
        rw [marketStep_yield_3m, if_neg (by simpa using hq)]

theorem perm_eq_of_length_le_one {α : Type _} {l l' : List α}
    (h : l.Perm l') (hl : l.length ≤ 1) : l = l' := by
  cases l with
  | nil => exact (h.symm.eq_nil).symm
  | cons a t =>
      cases t with
      | nil => exact List.singleton_perm.mp h
      | cons b u => simp at hl

theorem MarketStatus.ext3 {m m' : MarketStatus}
    (h10 : m.yield_10y = m'.yield_10y) (h5 : m.yield_5y = m'.yield_5y)
    (h3 : m.yield_3m = m'.yield_3m) : m = m' := by
  cases m
  cases m'
  simp_all

/-- C8 (amended): the result-mapping loop of `fetch_market_status`
routes each entry to the yield field named by its embedded `symbol`
field, so for every response array with at most one entry per reference
instrument (`^TNX`, `^FVX`, `^IRX`) every permutation of the array
produces the same `MarketStatus`.  (The unrestricted claim fails: with
two entries carrying the same symbol the loop is last-write-wins, see
the counterexample.) -/
theorem market_status_perm_of_unique_symbols (rs rs' : List YahooQuote)
    (hperm : rs.Perm rs')
    (h1 : (rs.filter (fun q => q.symbol == "^TNX")).length ≤ 1)
    (h2 : (rs.filter (fun q => q.symbol == "^FVX")).length ≤ 1)
    (h3 : (rs.filter (fun q => q.symbol == "^IRX")).length ≤ 1) :
    fetch_market_status rs = fetch_market_status rs' := by
  have e1 := perm_eq_of_length_le_one
    (hperm.filter (fun q => q.symbol == "^TNX")) h1
  have e2 := perm_eq_of_length_le_one
    (hperm.filter (fun q => q.symbol == "^FVX")) h2
  have e3 := perm_eq_of_length_le_one
    (hperm.filter (fun q => q.symbol == "^IRX")) h3
  unfold fetch_market_status
  refine MarketStatus.ext3 ?_ ?_ ?_
  · rw [foldl_yield_10y, foldl_yield_10y, e1]
  · rw [foldl_yield_5y, foldl_yield_5y, e2]
  · rw [foldl_yield_3m, foldl_yield_3m, e3]

/-- A `^TNX` entry quoting 4. -/
def qTNX4 : YahooQuote :=
  ⟨none, none, none, none, none, none, none, none, none, "^TNX", some 4⟩

/-- A `^TNX` entry quoting 5. -/
def qTNX5 : YahooQuote :=
  ⟨none, none, none, none, none, none, none, none, none, "^TNX", some 5⟩

/-- A `^FVX` entry quoting 3. -/
def qFVX3 : YahooQuote :=
  ⟨none, none, none, none, none, none, none, none, none, "^FVX", some 3⟩

/-- C8 counterexample: two entries with the same symbol `^TNX` but
different prices; swapping them is a permutation of the response array
yet changes the resulting `MarketStatus` (last write wins). -/
theorem market_status_perm_counterexample :
    List.Perm [qTNX4, qTNX5] [qTNX5, qTNX4] ∧
      fetch_market_status [qTNX4, qTNX5] ≠
        fetch_market_status [qTNX5, qTNX4] :=
  ⟨List.Perm.swap qTNX5 qTNX4 [], by decide⟩

/-- C8 witness: with distinct symbols the swapped response array yields
the same `MarketStatus`. -/
theorem market_status_perm_witness :
    fetch_market_status [qTNX4, qFVX3] = fetch_market_status [qFVX3, qTNX4] :=
  market_status_perm_of_unique_symbols [qTNX4, qFVX3] [qFVX3, qTNX4]
    (List.Perm.swap qFVX3 qTNX4 []) (by decide) (by decide) (by decide)

theorem crumbCritical_none (net : Nat → Except String String) (h : Nat) :
    crumbCritical net none h = (cacheOf (net h), h + 1, net h) := by
  unfold crumbCritical cacheOf
  cases net h <;> rfl

/-- Caller 0 holds the mutex, cache still cold. -/
def crumbW0 : CrumbState :=
  ⟨LockOwner.c0, none, 0, CallerPhase.locked, CallerPhase.idle⟩

/-- Caller 1 holds the mutex, cache still cold. -/
def crumbW1 : CrumbState :=
  ⟨LockOwner.c1, none, 0, CallerPhase.idle, CallerPhase.locked⟩

/-- Caller 0 finished first (one handshake done), caller 1 still idle. -/
def crumbD0 (net : Nat → Except String String) : CrumbState :=
  ⟨LockOwner.free, cacheOf (net 0), 1, CallerPhase.done (net 0),
    CallerPhase.idle⟩

/-- Caller 1 finished first, caller 0 still idle. -/
def crumbD1 (net : Nat → Except String String) : CrumbState :=
  ⟨LockOwner.free, cacheOf (net 0), 1, CallerPhase.idle,
    CallerPhase.done (net 0)⟩

/-- Caller 0 finished first, caller 1 now holds the mutex. -/
def crumbD0L1 (net : Nat → Except String String) : CrumbState :=
  ⟨LockOwner.c1, cacheOf (net 0), 1, CallerPhase.done (net 0),
    CallerPhase.locked⟩

/-- Caller 1 finished first, caller 0 now holds the mutex. -/
def crumbD1L0 (net : Nat → Except String String) : CrumbState :=
  ⟨LockOwner.c0, cacheOf (net 0), 1, CallerPhase.locked,
    CallerPhase.done (net 0)⟩

/-- Both callers finished, caller 0 first. -/
def crumbB0 (net : Nat → Except String String) : CrumbState :=
  ⟨LockOwner.free, (crumbCritical net (cacheOf (net 0)) 1).1,
    (crumbCritical net (cacheOf (net 0)) 1).2.1, CallerPhase.done (net 0),
    CallerPhase.done (crumbCritical net (cacheOf (net 0)) 1).2.2⟩

/-- Both callers finished, caller 1 first. -/
def crumbB1 (net : Nat → Except String String) : CrumbState :=
  ⟨LockOwner.free, (crumbCritical net (cacheOf (net 0)) 1).1,
    (crumbCritical net (cacheOf (net 0)) 1).2.1,
    CallerPhase.done (crumbCritical net (cacheOf (net 0)) 1).2.2,
    CallerPhase.done (net 0)⟩

/-- Exhaustive description of the states the two-caller crumb system can
reach from a cold start: the inductive invariant of the C6 proof. -/
def crumbGood (net : Nat → Except String String) (s : CrumbState) : Prop :=
  s = initCrumbState ∨ s = crumbW0 ∨ s = crumbW1 ∨ s = crumbD0 net ∨
    s = crumbD1 net ∨ s = crumbD0L1 net ∨ s = crumbD1L0 net ∨
    s = crumbB0 net ∨ s = crumbB1 net

theorem crumbGood_step {net : Nat → Except String String} {s t : CrumbState}
    (hg : crumbGood net s) (hstep : CrumbStep net s t) : crumbGood net t := by
  cases hstep with
  | acquire0 ho hp =>
      rcases hg with rfl | rfl | rfl | rfl | rfl | rfl | rfl | rfl | rfl
      · exact Or.inr (Or.inl rfl)
      · exact LockOwner.noConfusion ho
      · exact LockOwner.noConfusion ho
      · exact CallerPhase.noConfusion hp
      · exact Or.inr (Or.inr (Or.inr (Or.inr (Or.inr (Or.inr (Or.inl rfl))))))
      · exact LockOwner.noConfusion ho
      · exact LockOwner.noConfusion ho
      · exact CallerPhase.noConfusion hp
      · exact CallerPhase.noConfusion hp
  | acquire1 ho hp =>
      rcases hg with rfl | rfl | rfl | rfl | rfl | rfl | rfl | rfl | rfl
      · exact Or.inr (Or.inr (Or.inl rfl))
      · exact LockOwner.noConfusion ho
      · exact LockOwner.noConfusion ho
      · exact Or.inr (Or.inr (Or.inr (Or.inr (Or.inr (Or.inl rfl)))))
      · exact CallerPhase.noConfusion hp
      · exact LockOwner.noConfusion ho
      · exact LockOwner.noConfusion ho
      · exact CallerPhase.noConfusion hp
      · exact CallerPhase.noConfusion hp
  | finish0 ho hp =>
      rcases hg with rfl | rfl | rfl | rfl | rfl | rfl | rfl | rfl | rfl
      · exact LockOwner.noConfusion ho
      · refine Or.inr (Or.inr (Or.inr (Or.inl ?_)))
        show (⟨LockOwner.free, (crumbCritical net none 0).1,
          (crumbCritical net none 0).2.1,
          CallerPhase.done (crumbCritical net none 0).2.2,
          CallerPhase.idle⟩ : CrumbState) = crumbD0 net
        rw [crumbCritical_none]
        rfl
      · exact LockOwner.noConfusion ho
      · exact LockOwner.noConfusion ho
      · exact LockOwner.noConfusion ho
      · exact LockOwner.noConfusion ho
      · exact Or.inr (Or.inr (Or.inr (Or.inr (Or.inr (Or.inr (Or.inr
          (Or.inr rfl)))))))
      · exact LockOwner.noConfusion ho
      · exact LockOwner.noConfusion ho
  | finish1 ho hp =>
      rcases hg with rfl | rfl | rfl | rfl | rfl | rfl | rfl | rfl | rfl
      · exact LockOwner.noConfusion ho
      · exact LockOwner.noConfusion ho
      · refine Or.inr (Or.inr (Or.inr (Or.inr (Or.inl ?_))))
        show (⟨LockOwner.free, (crumbCritical net none 0).1,
          (crumbCritical net none 0).2.1, CallerPhase.idle,
          CallerPhase.done (crumbCritical net none 0).2.2⟩ : CrumbState) =
          crumbD1 net
        rw [crumbCritical_none]
        rfl
      · exact LockOwner.noConfusion ho
      · exact LockOwner.noConfusion ho
      · exact Or.inr (Or.inr (Or.inr (Or.inr (Or.inr (Or.inr (Or.inr
          (Or.inl rfl)))))))
      · exact LockOwner.noConfusion ho
      · exact LockOwner.noConfusion ho
      · exact LockOwner.noConfusion ho

theorem crumbGood_reach {net : Nat → Except String String} {s : CrumbState}
    (h : CrumbReach net initCrumbState s) : crumbGood net s := by
  induction h with
  | refl => exact Or.inl rfl
  | tail h1 h2 ih => exact crumbGood_step ih h2

/-- C6 (amended): two concurrent `get_yahoo_crumb` callers starting from
a cold cache, under every interleaving.  If the first handshake succeeds
with token `t`, exactly one handshake happens in total and both callers
return `t` (the claim as stated).  If the first handshake fails, the
failure is not cached: the first finisher returns the error, the second
caller performs its own handshake (two in total) and returns that second
result — the amendment the code forces for the failure case. -/
theorem crumb_single_handshake (net : Nat → Except String String)
    (s : CrumbState) (h : CrumbReach net initCrumbState s)
    (r0 r1 : Except String String)
    (h0 : s.p0 = CallerPhase.done r0) (h1 : s.p1 = CallerPhase.done r1) :
    (∀ t, net 0 = Except.ok t →
        r0 = Except.ok t ∧ r1 = Except.ok t ∧ s.handshakes = 1 ∧
          s.cache = some t) ∧
      (∀ e, net 0 = Except.error e →
        s.handshakes = 2 ∧ s.cache = cacheOf (net 1) ∧
          ((r0 = Except.error e ∧ r1 = net 1) ∨
            (r0 = net 1 ∧ r1 = Except.error e))) := by
  have hg := crumbGood_reach h
  rcases hg with rfl | rfl | rfl | rfl | rfl | rfl | rfl | rfl | rfl
  · exact CallerPhase.noConfusion h0
  · exact CallerPhase.noConfusion h0
  · exact CallerPhase.noConfusion h0
  · exact CallerPhase.noConfusion h1
  · exact CallerPhase.noConfusion h0
  · exact CallerPhase.noConfusion h1
  · exact CallerPhase.noConfusion h0
  · -- caller 0 finished first
    simp only [crumbB0] at h0 h1
    injection h0 with hr0
    injection h1 with hr1
    subst hr0
    subst hr1
    constructor
    · intro t ht
      have hcc : crumbCritical net (cacheOf (net 0)) 1 =
          (some t, 1, Except.ok t) := by
        rw [ht]
        rfl
      refine ⟨ht, ?_, ?_, ?_⟩
      · rw [hcc]
      · show (crumbB0 net).handshakes = 1
        simp [crumbB0, hcc]
      · show (crumbB0 net).cache = some t
        simp [crumbB0, hcc]
    · intro e he
      have hcc : crumbCritical net (cacheOf (net 0)) 1 =
          (cacheOf (net 1), 2, net 1) := by
        rw [he]
        exact crumbCritical_none net 1
      refine ⟨?_, ?_, Or.inl ⟨he, ?_⟩⟩
      · show (crumbB0 net).handshakes = 2
        simp [crumbB0, hcc]
      · show (crumbB0 net).cache = cacheOf (net 1)
        simp [crumbB0, hcc]
      · rw [hcc]
  · -- caller 1 finished first
    simp only [crumbB1] at h0 h1
    injection h0 with hr0
    injection h1 with hr1
    subst hr0
    subst hr1
    constructor
    · intro t ht
      have hcc : crumbCritical net (cacheOf (net 0)) 1 =
          (some t, 1, Except.ok t) := by
        rw [ht]
        rfl
      refine ⟨?_, ht, ?_, ?_⟩
      · rw [hcc]
      · show (crumbB1 net).handshakes = 1
        simp [crumbB1, hcc]
      · show (crumbB1 net).cache = some t
        simp [crumbB1, hcc]
    · intro e he
      have hcc : crumbCritical net (cacheOf (net 0)) 1 =
          (cacheOf (net 1), 2, net 1) := by
        rw [he]
        exact crumbCritical_none net 1
      refine ⟨?_, ?_, Or.inr ⟨?_, he⟩⟩
      · show (crumbB1 net).handshakes = 2
        simp [crumbB1, hcc]
      · show (crumbB1 net).cache = cacheOf (net 1)
        simp [crumbB1, hcc]
      · rw [hcc]

/-- Handshake oracle whose first attempt fails and second succeeds. -/
def netCE : Nat → Except String String := fun n =>
  match n with
  | 0 => Except.error "boom"
  | _ => Except.ok "tok"

/-- After the first caller's failed handshake: cache still cold. -/
def crumbCE2 : CrumbState :=
  ⟨LockOwner.free, none, 1, CallerPhase.done (Except.error "boom"),
    CallerPhase.idle⟩

/-- Second caller holding the mutex after the first one failed. -/
def crumbCE3 : CrumbState :=
  ⟨LockOwner.c1, none, 1, CallerPhase.done (Except.error "boom"),
    CallerPhase.locked⟩

/-- Terminal state of the failure interleaving: two handshakes. -/
def crumbCE4 : CrumbState :=
  ⟨LockOwner.free, some "tok", 2, CallerPhase.done (Except.error "boom"),
    CallerPhase.done (Except.ok "tok")⟩

/-- C6 counterexample: when the first handshake fails, a reachable
terminal interleaving performs two handshakes in total and the two
callers observe different results — refuting the claim that exactly one
handshake happens and both callers observe the same token or the single
failure. -/
theorem crumb_failure_retries_counterexample :
    CrumbReach netCE initCrumbState crumbCE4 ∧
      crumbCE4.handshakes = 2 ∧ crumbCE4.handshakes ≠ 1 ∧
      crumbCE4.p0 = CallerPhase.done (Except.error "boom") ∧
      crumbCE4.p1 = CallerPhase.done (Except.ok "tok") ∧
      (Except.error "boom" : Except String String) ≠ Except.ok "tok" := by
  refine ⟨?_, rfl, by decide, rfl, rfl, by decide⟩
  exact CrumbReach.tail
    (CrumbReach.tail
      (CrumbReach.tail
        (CrumbReach.tail (CrumbReach.refl initCrumbState)
          (CrumbStep.acquire0 initCrumbState rfl rfl))
        (CrumbStep.finish0 crumbW0 rfl rfl))
      (CrumbStep.acquire1 crumbCE2 rfl rfl))
    (CrumbStep.finish1 crumbCE3 rfl rfl)

/-- Handshake oracle that always succeeds with `"tok"`. -/
def netOK : Nat → Except String String := fun _ => Except.ok "tok"

/-- First caller done, cache warm. -/
def crumbOK2 : CrumbState :=
  ⟨LockOwner.free, some "tok", 1, CallerPhase.done (Except.ok "tok"),
    CallerPhase.idle⟩

/-- Second caller holding the mutex over the warm cache. -/
def crumbOK3 : CrumbState :=
  ⟨LockOwner.c1, some "tok", 1, CallerPhase.done (Except.ok "tok"),
    CallerPhase.locked⟩

/-- Terminal state of the success interleaving: one handshake. -/
def crumbOK4 : CrumbState :=
  ⟨LockOwner.free, some "tok", 1, CallerPhase.done (Except.ok "tok"),
    CallerPhase.done (Except.ok "tok")⟩

/-- C6 witness: the success case evaluated on a concrete interleaving. -/
theorem crumb_single_handshake_witness :
    Except.ok "tok" = (Except.ok "tok" : Except String String) ∧
      Except.ok "tok" = (Except.ok "tok" : Except String String) ∧
      crumbOK4.handshakes = 1 ∧ crumbOK4.cache = some "tok" :=
  (crumb_single_handshake netOK crumbOK4
    (CrumbReach.tail
      (CrumbReach.tail
        (CrumbReach.tail
          (CrumbReach.tail (CrumbReach.refl initCrumbState)
            (CrumbStep.acquire0 initCrumbState rfl rfl))
          (CrumbStep.finish0 crumbW0 rfl rfl))
        (CrumbStep.acquire1 crumbOK2 rfl rfl))
      (CrumbStep.finish1 crumbOK3 rfl rfl))
    (Except.ok "tok") (Except.ok "tok") rfl rfl).1 "tok" rfl
